import Mathlib

/-!
Verification development for the batch classification engine of
`music_classifier.py` (class `MusicClassifier`).

Modelling conventions (shallow embedding):
* Python strings are `List Char`; only ASCII behaviour of `str.lower`,
  `str.strip`, `\s` and `\d` is modelled (all string constants in the
  program are ASCII).
* Python floats are modelled as rationals `ℚ`; `f"{x:.0f}"` / `f"{x:.2f}"`
  round half-to-even on the rational value.
* `time.sleep`, backend calls and per-batch progress prints are modelled as
  events in an explicit trace (`Ev`).
* The text-generation backend is modelled as an oracle mapping an attempt
  index to `none` (the call raised an exception) or `some reply`
  (the call returned reply text).
* Python dicts are association lists whose `lookup` finds the first
  (unique) occurrence of a key.
-/

/-- Whitespace class of the regex `\s` and of `str.strip` (ASCII part). -/
def isWSpace (c : Char) : Bool :=
  c = ' ' || c = '\t' || c = '\n' || c = '\r' || c = '\x0b' || c = '\x0c'

/-- Case-insensitive literal matcher: consumes `pat` from the front of `s`
(used for the `Track` literal under `re.IGNORECASE`). -/
def stripLitCI (pat : List Char) (s : List Char) : Option (List Char) :=
  match pat, s with
  | [], rest => some rest
  | _ :: _, [] => none
  | p :: ps, c :: cs => if c.toLower = p.toLower then stripLitCI ps cs else none

/-- Digit string to number, as `int()` does on a `\d+` match. -/
def digitsToNat (ds : List Char) : ℕ :=
  ds.foldl (fun a c => 10 * a + (c.toNat - '0'.toNat)) 0

/-- One attempted match of the regex `Track\s+(\d+):\s*\*\*([^*]+)\*\*`
anchored at the start of `s`.  Greedy `\s+` / `\d+` / `[^*]+` runs followed
by a required literal are maximal runs (backtracking cannot help, since a
shorter run would end on a character of the same class).  Returns the two
capture groups and the remainder of the text after the match. -/
def matchAt (s : List Char) : Option ((ℕ × List Char) × List Char) :=
  match stripLitCI ("Track".toList) s with
  | none => none
  | some s1 =>
    let ws := s1.takeWhile isWSpace
    let s2 := s1.dropWhile isWSpace
    if ws.isEmpty then none else
    let ds := s2.takeWhile Char.isDigit
    let s3 := s2.dropWhile Char.isDigit
    if ds.isEmpty then none else
    match s3 with
    | ':' :: s4 =>
      match s4.dropWhile isWSpace with
      | '*' :: '*' :: s6 =>
        let cat := s6.takeWhile (fun c => c ≠ '*')
        let s7 := s6.dropWhile (fun c => c ≠ '*')
        if cat.isEmpty then none else
        match s7 with
        | '*' :: '*' :: s8 => some ((digitsToNat ds, cat), s8)
        | _ => none
      | _ => none
    | _ => none

/-- Scanner for `re.findall`: try a match at every position, left to right,
continuing after the end of each match (non-overlapping).  The fuel is the
length of the text; every step consumes at least one character (a
successful match consumes at least the five characters of `Track`), so the
fuel never truncates the scan. -/
def scanAux : ℕ → List Char → List (ℕ × List Char)
  | 0, _ => []
  | _ + 1, [] => []
  | fuel + 1, c :: cs =>
    match matchAt (c :: cs) with
    | some (m, rest) => m :: scanAux fuel rest
    | none => scanAux fuel cs

/-- All `(track number, raw category text)` matches in a raw reply. -/
def scanMatches (resp : List Char) : List (ℕ × List Char) :=
  scanAux resp.length resp

/-- The three canonical categories, `MusicClassifier.CATEGORIES`, in their
declared order. -/
def CATEGORIES : List (List Char) :=
  ["Dance Pop".toList, "House".toList, "Bass".toList]

/-- Python `str.strip()` (ASCII whitespace). -/
def pyStrip (s : List Char) : List Char :=
  ((s.dropWhile isWSpace).reverse.dropWhile isWSpace).reverse

/-- Python `str.lower()` (ASCII). -/
def toLowerList (s : List Char) : List Char := s.map Char.toLower

/-- Python substring test `needle in hay`. -/
def substrOf (needle : List Char) : List Char → Bool
  | [] => needle.isEmpty
  | c :: cs => needle.isPrefixOf (c :: cs) || substrOf needle cs

/-- The fuzzy-match loop of `_parse_classification_response`: walk the
canonical categories in declared order and stop (`break`) at the first one
whose lowercase form contains, or is contained in, the lowercase trimmed
text. -/
def fuzzyFirst (t : List Char) : List (List Char) → Option (List Char)
  | [] => none
  | c :: rest =>
    if substrOf (toLowerList c) (toLowerList t) || substrOf (toLowerList t) (toLowerList c)
    then some c
    else fuzzyFirst t rest

/-- Category resolution for one regex match: exact (case-sensitive) hit in
`CATEGORIES` after `strip()`, otherwise the fuzzy containment scan;
`none` when nothing matches (the track number stays unmapped). -/
def resolveCategory (raw : List Char) : Option (List Char) :=
  let t := pyStrip raw
  if t ∈ CATEGORIES then some t else fuzzyFirst t CATEGORIES

/-- The dict `track_classifications` built by iterating over the matches in
order, inserting only resolvable categories; a later resolvable match for
the same key overwrites an earlier one, so the lookup consults the tail
(later matches) first and falls back to the head. -/
def buildMap : List (ℕ × List Char) → ℕ → Option (List Char)
  | [], _ => none
  | (k, raw) :: rest, i =>
    match buildMap rest i with
    | some v => some v
    | none => if i = k then resolveCategory raw else none

/-- Model of `_parse_classification_response`: scan the reply, build the
track-number → category map, and read it back for track numbers 1..n. -/
def parse_classification_response (resp : List Char) (n : ℕ) : List (Option (List Char)) :=
  (List.range n).map (fun i => buildMap (scanMatches resp) (i + 1))

/-- Observable effects of the engine: one backend call (`send`), a
`time.sleep(t)` (`sleep t`), and the per-batch progress print carrying the
batch size (`batchStart k`). -/
inductive Ev where
  | send : Ev
  | sleep : ℕ → Ev
  | batchStart : ℕ → Ev
deriving DecidableEq, Repr

/-- The attempt success rate `successful_classifications / len(tracks)`
(float division modelled as rational division). -/
def successRate (ok n : ℕ) : ℚ := (ok : ℚ) / (n : ℚ)

/-- Count of non-null classifications in a parse result. -/
def countSome (l : List (Option (List Char))) : ℕ := l.countP (fun c => c.isSome)

/-- The retry loop body of `classify_batch`, iterating over the attempt
indices `range max_retries`.  For each attempt: one `send`; on a reply,
accept when the success rate reaches 0.7, otherwise retry immediately (the
`else` branch of the rate check only prints); on an exception, sleep
`2 ^ attempt` first when attempts remain (`attempt < max_retries - 1`).
Falling off the loop yields all-`none`. -/
def classifyLoop (oracle : ℕ → Option (List Char)) (n mr : ℕ) :
    List ℕ → List (Option (List Char)) × List Ev
  | [] => (List.replicate n none, [])
  | a :: rest =>
    match oracle a with
    | some resp =>
      let cls := parse_classification_response resp n
      if 7 / 10 ≤ successRate (countSome cls) n then (cls, [Ev.send])
      else
        let r := classifyLoop oracle n mr rest
        (r.1, Ev.send :: r.2)
    | none =>
      let backoff := if a < mr - 1 then [Ev.sleep (2 ^ a)] else []
      let r := classifyLoop oracle n mr rest
      (r.1, Ev.send :: (backoff ++ r.2))

/-- Model of `classify_batch`: empty input short-circuits with no call; otherwise
run the retry loop over attempts `0 .. max_retries - 1`.  The function is
total: every backend exception (oracle `none`) is handled inside the
loop, so no exception propagates to the caller. -/
def classify_batch (oracle : ℕ → Option (List Char)) (mr : ℕ)
    (tracks : List α) : List (Option (List Char)) × List Ev :=
  if tracks.isEmpty then ([], [])
  else classifyLoop oracle tracks.length mr (List.range mr)

/-- Values stored in a track record (the fragment of Python values the
engine stores or tests: `None`, strings, numbers). -/
inductive PyVal where
  | vNone : PyVal
  | vStr : List Char → PyVal
  | vNum : ℚ → PyVal
deriving DecidableEq

/-- A Python dict with string keys, as an association list with unique
keys; `lookup` finds the first binding. -/
def Dikt := List (String × PyVal)

instance : DecidableEq Dikt := fun a b => List.hasDecEq a b

/-- Python `d[k] = v`: replace the binding in place when the key exists,
otherwise append it. -/
def dictSet : List (String × PyVal) → String → PyVal → List (String × PyVal)
  | [], k, v => [(k, v)]
  | (k1, v1) :: t, k, v =>
    if k1 = k then (k, v) :: t else (k1, v1) :: dictSet t k v

/-- A classification result stored into a track record
(`track_with_classification['classification'] = classification`). -/
def toPyVal : Option (List Char) → PyVal
  | none => PyVal.vNone
  | some c => PyVal.vStr c

/-- The per-batch merge of `classify_tracks`: zip the batch with its
classification list and build, for each track, a copy with the
`classification` field set (`track.copy()` then item assignment — the
original record is not modified). -/
def attachAll (batch : List Dikt) (cls : List (Option (List Char))) : List Dikt :=
  (batch.zip cls).map (fun p => dictSet p.1 "classification" (toPyVal p.2))

/-- The batching loop of `classify_tracks` over
`range(0, len(tracks), batch_size)`, written on the not-yet-processed
suffix of the track list.  Per batch: progress print (`batchStart`), the
`classify_batch` call (its oracle is selected by the running batch
number), the merge, and a pacing `sleep 1` exactly when
`batch_idx + batch_size < len(tracks)`, i.e. when tracks remain.  A zero
`batch_size` models the `ZeroDivisionError` / `ValueError` the Python
code raises (result `none`).  The fuel starts above the list length and
every step drops at least one element, so it never truncates the loop. -/
def classifyTracksGo (oracle : ℕ → ℕ → Option (List Char)) (mr bs : ℕ) :
    ℕ → ℕ → List Dikt → Option (List Dikt × List Ev)
  | _, _, [] => some ([], [])
  | 0, _, _ :: _ => none
  | fuel + 1, bnum, h :: t =>
    if bs = 0 then none
    else
      let batch := (h :: t).take bs
      let r := classify_batch (oracle bnum) mr batch
      let rest := (h :: t).drop bs
      let pacing : List Ev := if rest.isEmpty then [] else [Ev.sleep 1]
      match classifyTracksGo oracle mr bs fuel (bnum + 1) rest with
      | none => none
      | some (res2, tr2) =>
        some (attachAll batch r.1 ++ res2, (Ev.batchStart batch.length :: r.2) ++ pacing ++ tr2)

/-- Model of `classify_tracks`: empty input short-circuits; otherwise run the
batching loop (batch numbers count from 1, as in the progress prints). -/
def classify_tracks (oracle : ℕ → ℕ → Option (List Char)) (mr bs : ℕ)
    (tracks : List Dikt) : Option (List Dikt × List Ev) :=
  if tracks.isEmpty then some ([], [])
  else classifyTracksGo oracle mr bs (tracks.length + 1) 1 tracks

/-- Sample reply used in concrete evaluations. -/
def replyBass : List Char := "Track 1: **Bass**".toList

/-- Result value of `get_classification_summary`.  The Python function
returns a dict; `success_rate := none` models the early-return dict that
carries no `success_rate` key (no division was performed). -/
structure Summary where
  total_tracks : ℕ
  categories : List (List Char × ℕ)
  unclassified : ℕ
  success_rate : Option ℚ
deriving DecidableEq

/-- Python `category_counts[c] += 1` on a dict whose keys were
pre-initialised. -/
def bumpCat (m : List (List Char × ℕ)) (k : List Char) : List (List Char × ℕ) :=
  m.map (fun p => if p.1 = k then (p.1, p.2 + 1) else p)

/-- The value `track.get('classification')` (default `None`). -/
def classificationOf (d : Dikt) : PyVal :=
  match List.lookup "classification" d with
  | some v => v
  | none => PyVal.vNone

/-- The per-track tally step: `if classification and classification in
self.CATEGORIES` bumps the category count, anything else (a `None`, a
non-string, an empty or non-canonical string) counts as unclassified. -/
def tallyStep (st : List (List Char × ℕ) × ℕ) (d : Dikt) : List (List Char × ℕ) × ℕ :=
  match classificationOf d with
  | PyVal.vStr s =>
    if !s.isEmpty && CATEGORIES.contains s then (bumpCat st.1 s, st.2)
    else (st.1, st.2 + 1)
  | _ => (st.1, st.2 + 1)

/-- Model of `get_classification_summary`: the empty input returns the literal dict
`{'total_tracks': 0, 'categories': {}, 'unclassified': 0}` (no
`success_rate` key); otherwise the counts dict is initialised to zero for
each canonical category and the tracks are tallied. -/
def get_classification_summary (tracks : List Dikt) : Summary :=
  if tracks.length = 0 then ⟨0, [], 0, none⟩
  else
    let init := CATEGORIES.map (fun c => (c, 0))
    let st := tracks.foldl tallyStep (init, 0)
    ⟨tracks.length, st.1, st.2,
      some (((tracks.length : ℚ) - st.2) / (tracks.length : ℚ))⟩

/-- Scalar values read out of the audio-feature dict: numbers (which the
`isinstance` checks accept) or strings (which fall through to `str(x)`). -/
inductive PyScalar where
  | num : ℚ → PyScalar
  | pstr : List Char → PyScalar
deriving DecidableEq

/-- The audio-feature fields the prompt renderer reads;
`none` models a key missing from the `audio_features` dict. -/
structure AudioFeatures where
  tempo : Option PyScalar
  energy : Option PyScalar
  danceability : Option PyScalar
deriving DecidableEq

/-- A track record as read by `_format_track_for_classification`:
`none` fields model keys missing from the track dict. -/
structure Track where
  name : Option (List Char)
  artists : Option (List (List Char))
  genres : Option (List (List Char))
  audio_features : Option AudioFeatures
deriving DecidableEq

/-- The literal default string `'Unknown'`. -/
def UNKNOWN : List Char := "Unknown".toList

/-- Round half to even, as Python `format` does for `.0f` / `.2f`
(on the rational model of the float value). -/
def rndHalfEven (q : ℚ) : ℤ :=
  let f : ℤ := ⌊q⌋
  if q - f < 1 / 2 then f
  else if 1 / 2 < q - f then f + 1
  else if f % 2 = 0 then f else f + 1

/-- Decimal digits of a natural number. -/
def natDigits (n : ℕ) : List Char := (toString n).toList

/-- Rendering of an integer. -/
def intDigits (z : ℤ) : List Char :=
  if z < 0 then '-' :: natDigits z.natAbs else natDigits z.natAbs

/-- Python `f"{q:.0f}"`. -/
def fmtF0 (q : ℚ) : List Char := intDigits (rndHalfEven q)

/-- Python `f"{q:.2f}"`: round at two decimals, half to even, and pad the
fractional part to two digits. -/
def fmtF2 (q : ℚ) : List Char :=
  let c := rndHalfEven (q * 100)
  let sign : List Char := if c < 0 then ['-'] else []
  let m := c.natAbs
  sign ++ natDigits (m / 100) ++ '.' ::
    (if m % 100 < 10 then '0' :: natDigits (m % 100) else natDigits (m % 100))

/-- Python `', '.join(xs)`. -/
def commaJoin (xs : List (List Char)) : List Char :=
  List.intercalate (", ".toList) xs

/-- The artists text: `', '.join(track.get('artists', ['Unknown']))`.
The `Unknown` default only applies when the key is missing; a present
empty list joins to the empty string. -/
def artistsStr (t : Track) : List Char :=
  commaJoin (t.artists.getD [UNKNOWN])

/-- The genres text: `', '.join(track.get('genres', ['Unknown']))`. -/
def genresStr (t : Track) : List Char :=
  commaJoin (t.genres.getD [UNKNOWN])

/-- The `audio_features` dict, defaulting to `{}`. -/
def afOf (t : Track) : AudioFeatures :=
  t.audio_features.getD ⟨none, none, none⟩

/-- The tempo text: `f"{tempo:.0f} BPM"` for a number, `str(tempo)` for
anything else (in particular the string default `'Unknown'` for a
missing key, and the raw text itself for a present non-numeric value). -/
def tempoStr (t : Track) : List Char :=
  match (afOf t).tempo.getD (PyScalar.pstr UNKNOWN) with
  | PyScalar.num q => fmtF0 q ++ (" BPM".toList)
  | PyScalar.pstr s => s

/-- The energy text: `f"{energy:.2f}"` for a number, `str(energy)`
otherwise. -/
def energyStr (t : Track) : List Char :=
  match (afOf t).energy.getD (PyScalar.pstr UNKNOWN) with
  | PyScalar.num q => fmtF2 q
  | PyScalar.pstr s => s

/-- The danceability text: `f"{danceability:.2f}"` for a number,
`str(danceability)` otherwise. -/
def danceabilityStr (t : Track) : List Char :=
  match (afOf t).danceability.getD (PyScalar.pstr UNKNOWN) with
  | PyScalar.num q => fmtF2 q
  | PyScalar.pstr s => s

/-- The name text: `track.get('name', 'Unknown')`. -/
def nameStr (t : Track) : List Char := t.name.getD UNKNOWN

/-- Model of `_format_track_for_classification`: the per-track prompt block
(note the two trailing spaces on each metadata line of the f-string). -/
def format_track_for_classification (t : Track) (index : ℕ) : List Char :=
  ("### Track ".toList) ++ natDigits (index + 1)
    ++ ("\nTrack: \"".toList) ++ nameStr t
    ++ ("\"  \nArtist: ".toList) ++ artistsStr t
    ++ ("  \nGenres: ".toList) ++ genresStr t
    ++ ("  \nTempo: ".toList) ++ tempoStr t
    ++ ("  \nEnergy: ".toList) ++ energyStr t
    ++ ("  \nDanceability: ".toList) ++ danceabilityStr t
    ++ ("  \nPrediction:".toList)

/-- Constructor configuration model: the integer values of the
`BATCH_SIZE` and `MAX_RETRIES` environment variables when set
(`os.getenv` followed by `int()`; a failed `int()` parse raises and is out
of scope of the modelled claims). -/
structure EnvCfg where
  batchSizeVar : Option ℤ
  maxRetriesVar : Option ℤ

/-- The `__init__` assignment `self.batch_size = batch_size or
int(os.getenv('BATCH_SIZE', '25'))`: a `None` or zero (falsy) argument is
discarded in favour of the environment value or the default 25. -/
def initBatchSize (arg : Option ℤ) (env : EnvCfg) : ℤ :=
  match arg with
  | some b => if b ≠ 0 then b else env.batchSizeVar.getD 25
  | none => env.batchSizeVar.getD 25

/-- The `__init__` assignment `self.max_retries = max_retries or
int(os.getenv('MAX_RETRIES', '3'))`. -/
def initMaxRetries (arg : Option ℤ) (env : EnvCfg) : ℤ :=
  match arg with
  | some b => if b ≠ 0 then b else env.maxRetriesVar.getD 3
  | none => env.maxRetriesVar.getD 3

/-- Concrete track for the C9 counterexample: every key present, the
artist list present but empty, all audio features present as non-numeric
strings, so that the rendered block contains no `Unknown` at all. -/
def cexTrack : Track :=
  { name := some ("X".toList),
    artists := some [],
    genres := some ["g".toList],
    audio_features := some
      { tempo := some (PyScalar.pstr ("t".toList)),
        energy := some (PyScalar.pstr ("e".toList)),
        danceability := some (PyScalar.pstr ("d".toList)) } }

/-- Number of backend calls recorded in a trace. -/
def countSend (tr : List Ev) : ℕ := tr.countP (fun e => e == Ev.send)

/-- Specification-side statement of the (amended) backoff policy, written
over the attempt list: every consumed attempt issues one `send`; an
accepted attempt ends the trace; a below-threshold reply retries
immediately; a raised backend call is followed by a `sleep (2 ^ a)`
exactly when `a < max_retries - 1`; nothing follows the final attempt. -/
def specBackoffTrace (oracle : ℕ → Option (List Char)) (n mr : ℕ) : List ℕ → List Ev
  | [] => []
  | a :: rest =>
    match oracle a with
    | some r =>
      if 7 / 10 ≤ successRate (countSome (parse_classification_response r n)) n
      then [Ev.send]
      else Ev.send :: specBackoffTrace oracle n mr rest
    | none =>
      Ev.send :: ((if a < mr - 1 then [Ev.sleep (2 ^ a)] else [])
        ++ specBackoffTrace oracle n mr rest)

/-- An attempt that does not get accepted: its backend call raised, or its
reply parsed to a below-threshold success rate. -/
def attemptFailsB (oracle : ℕ → Option (List Char)) (n a : ℕ) : Bool :=
  match oracle a with
  | none => true
  | some r =>
    decide (successRate (countSome (parse_classification_response r n)) n < 7 / 10)

/-- Reply used in the C1 counterexample: it contains no prediction line,
so it parses to all-`none` and the attempt success rate is 0. -/
def lowReply : List Char := "no predictions".toList

/-- Oracle whose backend always returns `lowReply` (no exception). -/
def lowOracle : ℕ → Option (List Char) := fun _ => some lowReply

/-- The batch sizes announced in a trace (one per progress print). -/
def batchStarts (tr : List Ev) : List ℕ :=
  tr.filterMap (fun e =>
    match e with
    | Ev.batchStart k => some k
    | _ => none)

/-- Expected batch sizes for a list of `n` tracks split with step `bs`:
`min bs n` for the first slice, then the remainder.  Fuel-based; fuel `n`
suffices, because every step removes at least one track when `bs ≥ 1`. -/
def splitSizesAux (bs : ℕ) : ℕ → ℕ → List ℕ
  | _, 0 => []
  | 0, _ + 1 => []
  | fuel + 1, n + 1 => min bs (n + 1) :: splitSizesAux bs fuel (n + 1 - bs)

/-- Expected batch sizes for `n` tracks at batch size `bs`. -/
def splitSizes (bs n : ℕ) : List ℕ := splitSizesAux bs n n

/-- Input record for the C8 counterexample: it already carries a
`classification` key. -/
def trackC : Dikt := [("classification", PyVal.vStr ("House".toList))]

example :
    parse_classification_response
      ("Track 1: **Dance Pop**\nTrack 2: **House**\nTrack 3: **Bass**".toList) 3
      = [some ("Dance Pop".toList), some ("House".toList), some ("Bass".toList)] := by
  decide

example :
    parse_classification_response
      ("Track 1: **dance pop**\nTrack 2: **HOUSE**\nTrack 3: **bass music**".toList) 3
      = [some ("Dance Pop".toList), some ("House".toList), some ("Bass".toList)] := by
  decide

example :
    parse_classification_response
      ("Track 1: **Dance Pop**\nTrack 2: **Invalid Category**\nTrack 3: **House**".toList) 3
      = [some ("Dance Pop".toList), none, some ("House".toList)] := by
  decide

/-- Unfolding of the retry loop when the attempt list is exhausted. -/
theorem classifyLoop_nil (oracle : ℕ → Option (List Char)) (n mr : ℕ) :
    classifyLoop oracle n mr [] = (List.replicate n none, []) := rfl

/-- Unfolding of the retry loop for an accepted attempt. -/
theorem classifyLoop_accept (oracle : ℕ → Option (List Char)) (n mr a : ℕ)
    (rest : List ℕ) (r : List Char) (h1 : oracle a = some r)
    (h2 : 7 / 10 ≤ successRate (countSome (parse_classification_response r n)) n) :
    classifyLoop oracle n mr (a :: rest)
      = (parse_classification_response r n, [Ev.send]) := by
  simp [classifyLoop, h1, h2]

/-- Unfolding of the retry loop for a below-threshold attempt: the engine
retries immediately, with no backoff event. -/
theorem classifyLoop_reject (oracle : ℕ → Option (List Char)) (n mr a : ℕ)
    (rest : List ℕ) (r : List Char) (h1 : oracle a = some r)
    (h2 : ¬ 7 / 10 ≤ successRate (countSome (parse_classification_response r n)) n) :
    classifyLoop oracle n mr (a :: rest)
      = ((classifyLoop oracle n mr rest).1, Ev.send :: (classifyLoop oracle n mr rest).2) := by
  simp [classifyLoop, h1, h2]

/-- Unfolding of the retry loop for an attempt whose backend call raised. -/
theorem classifyLoop_exc (oracle : ℕ → Option (List Char)) (n mr a : ℕ)
    (rest : List ℕ) (h1 : oracle a = none) :
    classifyLoop oracle n mr (a :: rest)
      = ((classifyLoop oracle n mr rest).1,
          Ev.send :: ((if a < mr - 1 then [Ev.sleep (2 ^ a)] else [])
            ++ (classifyLoop oracle n mr rest).2)) := by
  simp [classifyLoop, h1]

example :
    classify_batch (fun _ => some replyBass) 3 [((), ())]
      = ([some ("Bass".toList)], [Ev.send]) := by
  have hp : parse_classification_response replyBass 1 = [some ("Bass".toList)] := by decide
  have h2 : 7 / 10 ≤ successRate (countSome (parse_classification_response replyBass 1)) 1 := by
    rw [hp]; norm_num [successRate, countSome]
  have : classify_batch (fun _ => some replyBass) 3 [((), ())]
      = classifyLoop (fun _ => some replyBass) 1 3 [0, 1, 2] := rfl
  rw [this, classifyLoop_accept (fun _ => some replyBass) 1 3 0 [1, 2] replyBass rfl h2, hp]

example :
    (get_classification_summary
      [[("classification", PyVal.vStr ("Dance Pop".toList))],
       [("classification", PyVal.vStr ("Dance Pop".toList))],
       [("classification", PyVal.vStr ("House".toList))],
       [("classification", PyVal.vStr ("Bass".toList))],
       [("classification", PyVal.vNone)]]).categories
      = [("Dance Pop".toList, 2), ("House".toList, 1), ("Bass".toList, 1)] := by
  decide

/-- Helper: the fuzzy scan only returns elements of the list it walks. -/
theorem fuzzyFirst_mem (t : List Char) :
    ∀ l c, fuzzyFirst t l = some c → c ∈ l := by
  intro l
  induction l with
  | nil => intro c h; simp [fuzzyFirst] at h
  | cons x xs ih =>
    intro c h
    by_cases hx : (substrOf (toLowerList x) (toLowerList t)
        || substrOf (toLowerList t) (toLowerList x)) = true
    · simp [fuzzyFirst, hx] at h
      simp [h]
    · simp [fuzzyFirst, hx] at h
      exact List.mem_cons_of_mem x (ih c h)

/-- Helper: category resolution only produces canonical categories. -/
theorem resolveCategory_mem (raw c : List Char)
    (h : resolveCategory raw = some c) : c ∈ CATEGORIES := by
  unfold resolveCategory at h
  by_cases hm : pyStrip raw ∈ CATEGORIES
  · simp only [if_pos hm, Option.some.injEq] at h
    simpa [← h] using hm
  · simp only [if_neg hm] at h
    exact fuzzyFirst_mem _ _ _ h

/-- Helper: values of the track-number map are canonical categories. -/
theorem buildMap_mem (ms : List (ℕ × List Char)) (i : ℕ) (c : List Char)
    (h : buildMap ms i = some c) : c ∈ CATEGORIES := by
  induction ms with
  | nil => simp [buildMap] at h
  | cons m rest ih =>
    obtain ⟨k, raw⟩ := m
    unfold buildMap at h
    cases hr : buildMap rest i with
    | some v => rw [hr] at h; exact ih (hr.trans h)
    | none =>
      rw [hr] at h
      by_cases hik : i = k
      · rw [if_pos hik] at h
        exact resolveCategory_mem raw c h
      · rw [if_neg hik] at h
        exact absurd h (by simp)

/-- Helper: track numbers outside `[1, n]` never influence the map at an
in-range index. -/
theorem buildMap_filter (n : ℕ) (ms : List (ℕ × List Char)) (i : ℕ)
    (h1 : 1 ≤ i) (h2 : i ≤ n) :
    buildMap (ms.filter (fun m => decide (1 ≤ m.1 ∧ m.1 ≤ n))) i = buildMap ms i := by
  induction ms with
  | nil => rfl
  | cons m rest ih =>
    obtain ⟨k, raw⟩ := m
    by_cases hk : 1 ≤ k ∧ k ≤ n
    · rw [List.filter_cons_of_pos (by simpa using hk)]
      unfold buildMap
      rw [ih]
    · rw [List.filter_cons_of_neg (by simpa using hk)]
      rw [ih]
      have hik : i ≠ k := by
        intro he
        exact hk (he ▸ ⟨h1, h2⟩)
      have hcons : buildMap ((k, raw) :: rest) i
          = match buildMap rest i with
            | some v => some v
            | none => if i = k then resolveCategory raw else none := rfl
      rw [hcons]
      cases hr : buildMap rest i with
      | some v => rfl
      | none => simp [hik]

/-- Helper: the parse result always has exactly the requested length. -/
theorem parse_length (resp : List Char) (n : ℕ) :
    (parse_classification_response resp n).length = n := by
  simp [parse_classification_response]

/-- Claim C3: for every raw reply and expected count `n`, the parser
returns a list of length exactly `n`; its `i`-th entry (0-based here,
1-indexed track numbers) is the recorded mapping for track number `i + 1`,
or `none` when unmapped; every non-`none` entry is one of the three
canonical categories; and matches whose track number lies outside
`[1, n]` never affect any entry (filtering them out of the scanned
matches yields the same result list). -/
theorem claim3_parser_invariants (resp : List Char) (n : ℕ) :
    (parse_classification_response resp n).length = n
    ∧ (∀ i, i < n →
        (parse_classification_response resp n)[i]?
          = some (buildMap (scanMatches resp) (i + 1)))
    ∧ (∀ c, some c ∈ parse_classification_response resp n → c ∈ CATEGORIES)
    ∧ (List.range n).map
        (fun i => buildMap
          ((scanMatches resp).filter (fun m => decide (1 ≤ m.1 ∧ m.1 ≤ n))) (i + 1))
        = parse_classification_response resp n := by
  refine ⟨parse_length resp n, ?_, ?_, ?_⟩
  · intro i hi
    simp [parse_classification_response, List.getElem?_map, List.getElem?_range, hi]
  · intro c hc
    simp only [parse_classification_response, List.mem_map, List.mem_range] at hc
    obtain ⟨i, _, hi⟩ := hc
    exact buildMap_mem _ _ _ hi
  · unfold parse_classification_response
    refine List.map_congr_left ?_
    intro i hi
    exact buildMap_filter n (scanMatches resp) (i + 1)
      (Nat.succ_le_succ (Nat.zero_le i)) (List.mem_range.mp hi)

/-- Witness for C3 at a concrete reply and count. -/
theorem claim3_witness :
    (parse_classification_response replyBass 2).length = 2 :=
  (claim3_parser_invariants replyBass 2).1

/-- Helper: the fuzzy loop is the first-match scan over the canonical list
in declared order. -/
theorem fuzzyFirst_eq_find (t : List Char) :
    ∀ l, fuzzyFirst t l
      = l.find? (fun c => substrOf (toLowerList c) (toLowerList t)
          || substrOf (toLowerList t) (toLowerList c)) := by
  intro l
  induction l with
  | nil => rfl
  | cons x xs ih =>
    by_cases hx : (substrOf (toLowerList x) (toLowerList t)
        || substrOf (toLowerList t) (toLowerList x)) = true
    · simp [fuzzyFirst, List.find?, hx]
    · simp [fuzzyFirst, List.find?, hx, ih]

/-- Claim C4: a matched raw category text is trimmed; an exact
(case-sensitive) canonical hit is recorded as is; otherwise the canonical
categories are scanned in declared order for case-insensitive containment
in either direction and the first hit wins; when nothing matches the
track number stays unmapped (a single unmatched match contributes nothing
to the map); and the three documented fuzzy examples resolve as stated. -/
theorem claim4_fuzzy_resolution (raw : List Char) :
    (pyStrip raw ∈ CATEGORIES → resolveCategory raw = some (pyStrip raw))
    ∧ (pyStrip raw ∉ CATEGORIES →
        resolveCategory raw
          = CATEGORIES.find? (fun c =>
              substrOf (toLowerList c) (toLowerList (pyStrip raw))
                || substrOf (toLowerList (pyStrip raw)) (toLowerList c)))
    ∧ (∀ v, resolveCategory raw = some v → v ∈ CATEGORIES)
    ∧ (∀ k, buildMap [(k, raw)] k = resolveCategory raw)
    ∧ resolveCategory ("dance pop".toList) = some ("Dance Pop".toList)
    ∧ resolveCategory ("HOUSE".toList) = some ("House".toList)
    ∧ resolveCategory ("bass music".toList) = some ("Bass".toList) := by
  refine ⟨?_, ?_, ?_, ?_, by decide, by decide, by decide⟩
  · intro hm
    simp [resolveCategory, hm]
  · intro hm
    simp [resolveCategory, hm, fuzzyFirst_eq_find]
  · intro v h
    exact resolveCategory_mem raw v h
  · intro k
    simp [buildMap]

/-- Witness for C4: the first documented fuzzy example. -/
theorem claim4_witness :
    resolveCategory ("dance pop".toList) = some ("Dance Pop".toList) :=
  (claim4_fuzzy_resolution ("dance pop".toList)).2.2.2.2.1

/-- Claim C2 counterexample: on the empty input the summary's category
map is the empty dict — the canonical categories are not present with
count 0 (looking one of them up fails), contradicting the claim. -/
theorem claim2_counterexample :
    (get_classification_summary []).categories = []
    ∧ ¬ List.lookup ("Dance Pop".toList) (get_classification_summary []).categories
        = some 0 := by
  constructor
  · rfl
  · intro h
    simp [get_classification_summary] at h

/-- Claim C2 as amended: `get_classification_summary []` returns total 0,
unclassified 0, an empty category map (none of the canonical categories
is present), and no success-rate division is performed (the returned
dict carries no `success_rate` entry). -/
theorem claim2_amended_empty_summary :
    get_classification_summary []
      = { total_tracks := 0, categories := [], unclassified := 0,
          success_rate := none } := rfl

/-- Claim C7: both entry points short-circuit on the empty track list:
they return the empty list and their effect trace is empty — no backend
call (`send`), no sleep, not even a batch progress print. -/
theorem claim7_empty_inputs (α : Type) (oracle : ℕ → Option (List Char))
    (oracle2 : ℕ → ℕ → Option (List Char)) (mr bs : ℕ) :
    classify_batch oracle mr ([] : List α) = ([], [])
    ∧ classify_tracks oracle2 mr bs [] = some ([], []) :=
  ⟨rfl, rfl⟩

/-- Claim C9 counterexample: for a track whose artist list is present but
empty, the artists text renders as the empty string, not as `Unknown` —
indeed the whole rendered block contains no occurrence of `Unknown`. -/
theorem claim9_counterexample :
    cexTrack.artists = some []
    ∧ artistsStr cexTrack = []
    ∧ ¬ artistsStr cexTrack = UNKNOWN
    ∧ substrOf UNKNOWN (format_track_for_classification cexTrack 0) = false := by
  refine ⟨rfl, rfl, by decide, by decide⟩

/-- Claim C9 as amended: in the per-track block, the artists (and genres)
text is the comma-join of the stored list, with the literal `Unknown`
arising only as the default for an absent key — a present-but-empty list
renders as the empty string; tempo renders as the rounded value suffixed
" BPM" when numeric and as the raw string value otherwise (so `Unknown`
appears exactly when the key is absent); energy and danceability render
with two decimals when numeric and as the raw string value otherwise. -/
theorem claim9_amended_field_rendering (t : Track) :
    (t.artists = none → artistsStr t = UNKNOWN)
    ∧ (t.artists = some [] → artistsStr t = [])
    ∧ (∀ l, t.artists = some l → artistsStr t = commaJoin l)
    ∧ (t.genres = none → genresStr t = UNKNOWN)
    ∧ (t.genres = some [] → genresStr t = [])
    ∧ (∀ l, t.genres = some l → genresStr t = commaJoin l)
    ∧ ((afOf t).tempo = none → tempoStr t = UNKNOWN)
    ∧ (∀ q, (afOf t).tempo = some (PyScalar.num q) →
        tempoStr t = fmtF0 q ++ (" BPM".toList))
    ∧ (∀ s, (afOf t).tempo = some (PyScalar.pstr s) → tempoStr t = s)
    ∧ ((afOf t).energy = none → energyStr t = UNKNOWN)
    ∧ (∀ q, (afOf t).energy = some (PyScalar.num q) → energyStr t = fmtF2 q)
    ∧ (∀ s, (afOf t).energy = some (PyScalar.pstr s) → energyStr t = s)
    ∧ ((afOf t).danceability = none → danceabilityStr t = UNKNOWN)
    ∧ (∀ q, (afOf t).danceability = some (PyScalar.num q) →
        danceabilityStr t = fmtF2 q)
    ∧ (∀ s, (afOf t).danceability = some (PyScalar.pstr s) →
        danceabilityStr t = s) := by
  refine ⟨?_, ?_, ?_, ?_, ?_, ?_, ?_, ?_, ?_, ?_, ?_, ?_, ?_, ?_, ?_⟩
  · intro h; simp [artistsStr, h, commaJoin, List.intercalate]
  · intro h; simp [artistsStr, h, commaJoin, List.intercalate]
  · intro l h; simp [artistsStr, h]
  · intro h; simp [genresStr, h, commaJoin, List.intercalate]
  · intro h; simp [genresStr, h, commaJoin, List.intercalate]
  · intro l h; simp [genresStr, h]
  · intro h; simp [tempoStr, h]
  · intro q h; simp [tempoStr, h]
  · intro s h; simp [tempoStr, h]
  · intro h; simp [energyStr, h]
  · intro q h; simp [energyStr, h]
  · intro s h; simp [energyStr, h]
  · intro h; simp [danceabilityStr, h]
  · intro q h; simp [danceabilityStr, h]
  · intro s h; simp [danceabilityStr, h]

/-- Witness for C9 (amended): a track with no artists key renders the
artist text `Unknown`. -/
theorem claim9_witness :
    artistsStr (Track.mk none none none none) = UNKNOWN :=
  (claim9_amended_field_rendering _).1 rfl

/-- Helper: the trace of the retry loop is exactly the backoff-policy
trace. -/
theorem classifyLoop_trace_eq (oracle : ℕ → Option (List Char)) (n mr : ℕ) :
    ∀ l, (classifyLoop oracle n mr l).2 = specBackoffTrace oracle n mr l := by
  intro l
  induction l with
  | nil => rfl
  | cons a rest ih =>
    cases ho : oracle a with
    | some r =>
      by_cases hr : 7 / 10 ≤ successRate (countSome (parse_classification_response r n)) n
      · rw [classifyLoop_accept oracle n mr a rest r ho hr]
        simp [specBackoffTrace, ho, hr]
      · rw [classifyLoop_reject oracle n mr a rest r ho hr]
        simp [specBackoffTrace, ho, hr, ih]
    | none =>
      rw [classifyLoop_exc oracle n mr a rest ho]
      simp [specBackoffTrace, ho, ih]

/-- Helper: every sleep in the policy trace comes from a raised attempt
that still had attempts remaining, and its duration is `2 ^ a`. -/
theorem specBackoffTrace_sleep (oracle : ℕ → Option (List Char)) (n mr : ℕ) :
    ∀ l t, Ev.sleep t ∈ specBackoffTrace oracle n mr l →
      ∃ a, a ∈ l ∧ a < mr - 1 ∧ oracle a = none ∧ t = 2 ^ a := by
  intro l
  induction l with
  | nil => intro t h; simp [specBackoffTrace] at h
  | cons a rest ih =>
    intro t h
    cases ho : oracle a with
    | some r =>
      by_cases hr : 7 / 10 ≤ successRate (countSome (parse_classification_response r n)) n
      · simp only [specBackoffTrace, ho, if_pos hr] at h
        simp at h
      · simp only [specBackoffTrace, ho, if_neg hr] at h
        rcases List.mem_cons.mp h with h1 | h2
        · exact absurd h1 (by simp)
        · obtain ⟨b, hb, hlt, hob, ht⟩ := ih t h2
          exact ⟨b, List.mem_cons_of_mem a hb, hlt, hob, ht⟩
    | none =>
      simp only [specBackoffTrace, ho] at h
      rcases List.mem_cons.mp h with h1 | h2
      · exact absurd h1 (by simp)
      · rcases List.mem_append.mp h2 with h3 | h4
        · by_cases ha : a < mr - 1
          · rw [if_pos ha] at h3
            simp at h3
            exact ⟨a, List.mem_cons_self a rest, ha, ho, h3⟩
          · rw [if_neg ha] at h3
            simp at h3
        · obtain ⟨b, hb, hlt, hob, ht⟩ := ih t h4
          exact ⟨b, List.mem_cons_of_mem a hb, hlt, hob, ht⟩

/-- Claim C1 counterexample: with `max_retries = 2` and a one-track batch
whose first attempt parses successfully but below threshold (attempt 0,
and `0 < max_retries - 1`), the trace is two bare `send`s: no
`sleep (2 ^ 0) = sleep 1` is issued between attempts 0 and 1, contrary to
the claim. -/
theorem claim1_counterexample :
    successRate (countSome (parse_classification_response lowReply 1)) 1 < 7 / 10
    ∧ (0 : ℕ) < 2 - 1
    ∧ (classify_batch lowOracle 2 [()]).2 = [Ev.send, Ev.send]
    ∧ Ev.sleep 1 ∉ (classify_batch lowOracle 2 [()]).2 := by
  have hp : parse_classification_response lowReply 1 = [none] := by decide
  have hlow : successRate (countSome (parse_classification_response lowReply 1)) 1
      < 7 / 10 := by
    rw [hp]
    norm_num [successRate, countSome]
  have hnot : ¬ 7 / 10 ≤ successRate (countSome (parse_classification_response lowReply 1)) 1 :=
    not_le.mpr hlow
  have hb : classify_batch lowOracle 2 [()] = classifyLoop lowOracle 1 2 [0, 1] := rfl
  have h0 : lowOracle 0 = some lowReply := rfl
  have h1 : lowOracle 1 = some lowReply := rfl
  have htr : (classify_batch lowOracle 2 [()]).2 = [Ev.send, Ev.send] := by
    rw [hb, classifyLoop_reject lowOracle 1 2 0 [1] lowReply h0 hnot,
      classifyLoop_reject lowOracle 1 2 1 [] lowReply h1 hnot]
    rfl
  refine ⟨hlow, by decide, htr, ?_⟩
  rw [htr]
  decide

/-- Claim C1 as amended: the trace of `classify_batch` on a non-empty
batch is exactly the policy trace in which a backoff `sleep (2 ^ a)` is
issued after attempt `a` precisely when that attempt's backend call
raised and `a < max_retries - 1`; below-threshold parsed attempts retry
with no delay; consequently every sleep in the trace is a `2 ^ a` for
some raised attempt `a < max_retries - 1` (in particular none after the
final attempt). -/
theorem claim1_amended_backoff (oracle : ℕ → Option (List Char)) (mr : ℕ)
    {α : Type} (tracks : List α) (h : tracks ≠ []) :
    (classify_batch oracle mr tracks).2
      = specBackoffTrace oracle tracks.length mr (List.range mr)
    ∧ ∀ t : ℕ, Ev.sleep t ∈ (classify_batch oracle mr tracks).2 →
        ∃ a, a < mr - 1 ∧ oracle a = none ∧ t = 2 ^ a := by
  have hne : tracks.isEmpty = false := by
    cases tracks with
    | nil => exact absurd rfl h
    | cons x xs => rfl
  have hb : classify_batch oracle mr tracks
      = classifyLoop oracle tracks.length mr (List.range mr) := by
    unfold classify_batch
    rw [hne]
    simp
  constructor
  · rw [hb]
    exact classifyLoop_trace_eq oracle tracks.length mr (List.range mr)
  · intro t ht
    rw [hb, classifyLoop_trace_eq] at ht
    obtain ⟨a, _, hlt, hob, heq⟩ :=
      specBackoffTrace_sleep oracle tracks.length mr (List.range mr) t ht
    exact ⟨a, hlt, hob, heq⟩

/-- Witness for C1 (amended) at a concrete non-empty batch. -/
theorem claim1_witness :
    (classify_batch (fun _ => none) 2 [()]).2
      = specBackoffTrace (fun _ => none) 1 2 (List.range 2)
    ∧ ∀ t : ℕ, Ev.sleep t ∈ (classify_batch (fun _ => none) 2 [()]).2 →
        ∃ a, a < 2 - 1 ∧ (fun _ => (none : Option (List Char))) a = none ∧ t = 2 ^ a :=
  claim1_amended_backoff (fun _ => none) 2 [()] (by decide)

/-- Helper: when every attempt in the list fails (raise or below
threshold), the loop returns all-`none` and issues exactly one backend
call per attempt. -/
theorem classifyLoop_fail (oracle : ℕ → Option (List Char)) (n mr : ℕ) :
    ∀ l, (∀ a ∈ l, attemptFailsB oracle n a = true) →
      (classifyLoop oracle n mr l).1 = List.replicate n none
      ∧ countSend (classifyLoop oracle n mr l).2 = l.length := by
  intro l
  induction l with
  | nil => intro _; exact ⟨rfl, rfl⟩
  | cons a rest ih =>
    intro hall
    have hrest := ih (fun b hb => hall b (List.mem_cons_of_mem a hb))
    have ha := hall a (List.mem_cons_self a rest)
    cases ho : oracle a with
    | some r =>
      have hlow : successRate (countSome (parse_classification_response r n)) n < 7 / 10 := by
        unfold attemptFailsB at ha
        rw [ho] at ha
        exact of_decide_eq_true ha
      rw [classifyLoop_reject oracle n mr a rest r ho (not_le.mpr hlow)]
      refine ⟨hrest.1, ?_⟩
      simp [countSend] at hrest ⊢
      omega
    | none =>
      rw [classifyLoop_exc oracle n mr a rest ho]
      refine ⟨hrest.1, ?_⟩
      by_cases hlt : a < mr - 1
      · simp [countSend, hlt] at hrest ⊢
        omega
      · simp [countSend, hlt] at hrest ⊢
        omega

/-- Claim C5: for a non-empty batch, when all `max_retries` attempts fail
(each raised or parsed below the 0.7 threshold), `classify_batch` returns
exactly `len(tracks)` nulls — whatever the last below-threshold attempt
parsed is discarded — and issues exactly `max_retries` backend calls
(none beyond the budget).  The embedding of `classify_batch` is a total
function and the raised-call case is handled inside the loop, so no
backend exception propagates. -/
theorem claim5_exhaustion (oracle : ℕ → Option (List Char)) (mr : ℕ)
    {α : Type} (tracks : List α) (h1 : tracks ≠ [])
    (h2 : ∀ a, a < mr → attemptFailsB oracle tracks.length a = true) :
    (classify_batch oracle mr tracks).1 = List.replicate tracks.length none
    ∧ countSend (classify_batch oracle mr tracks).2 = mr := by
  have hne : tracks.isEmpty = false := by
    cases tracks with
    | nil => exact absurd rfl h1
    | cons x xs => rfl
  have hb : classify_batch oracle mr tracks
      = classifyLoop oracle tracks.length mr (List.range mr) := by
    unfold classify_batch
    rw [hne]
    simp
  have := classifyLoop_fail oracle tracks.length mr (List.range mr)
    (fun a ha => h2 a (List.mem_range.mp ha))
  rw [hb]
  exact ⟨this.1, by rw [this.2, List.length_range]⟩

/-- Witness for C5: two raised attempts on a one-track batch yield
`[none]` and exactly two calls. -/
theorem claim5_witness :
    (classify_batch (fun _ => none) 2 [()]).1 = List.replicate 1 none
    ∧ countSend (classify_batch (fun _ => none) 2 [()]).2 = 2 :=
  claim5_exhaustion (fun _ => none) 2 [()] (by decide) (by decide)

/-- Helper: the fuel of `splitSizesAux` is irrelevant as soon as it covers
the track count. -/
theorem splitSizesAux_irrel (bs : ℕ) (hbs : 0 < bs) :
    ∀ f1 n f2, n ≤ f1 → n ≤ f2 → splitSizesAux bs f1 n = splitSizesAux bs f2 n := by
  intro f1
  induction f1 with
  | zero =>
    intro n f2 h1 _
    interval_cases n
    cases f2 <;> rfl
  | succ f1 ih =>
    intro n f2 h1 h2
    cases n with
    | zero => cases f2 <;> rfl
    | succ m =>
      cases f2 with
      | zero => omega
      | succ f2 =>
        show min bs (m + 1) :: splitSizesAux bs f1 (m + 1 - bs)
          = min bs (m + 1) :: splitSizesAux bs f2 (m + 1 - bs)
        rw [ih (m + 1 - bs) f2 (by omega) (by omega)]

/-- Helper: one unfolding step of `splitSizes` for a positive count. -/
theorem splitSizes_cons (bs : ℕ) (hbs : 0 < bs) (n : ℕ) :
    splitSizes bs (n + 1) = min bs (n + 1) :: splitSizes bs (n + 1 - bs) := by
  show min bs (n + 1) :: splitSizesAux bs n (n + 1 - bs)
    = min bs (n + 1) :: splitSizesAux bs (n + 1 - bs) (n + 1 - bs)
  rw [splitSizesAux_irrel bs hbs n (n + 1 - bs) (n + 1 - bs) (by omega) (by omega)]

/-- Helper: every expected batch size is bounded by the batch size. -/
theorem splitSizes_le (bs : ℕ) (hbs : 0 < bs) :
    ∀ n s, s ∈ splitSizes bs n → s ≤ bs := by
  intro n
  induction n using Nat.strong_induction_on with
  | _ n ih =>
    intro s hs
    cases n with
    | zero => simp [splitSizes, splitSizesAux] at hs
    | succ m =>
      rw [splitSizes_cons bs hbs m] at hs
      rcases List.mem_cons.mp hs with h1 | h2
      · rw [h1]
        exact min_le_left bs (m + 1)
      · exact ih (m + 1 - bs) (by omega) s h2

/-- Helper: the number of expected batches is `⌈n / bs⌉`. -/
theorem splitSizes_length (bs : ℕ) (hbs : 0 < bs) :
    ∀ n, (splitSizes bs n).length = (n + bs - 1) / bs := by
  intro n
  induction n using Nat.strong_induction_on with
  | _ n ih =>
    cases n with
    | zero =>
      show (0 : ℕ) = (0 + bs - 1) / bs
      rw [Nat.div_eq_of_lt (by omega)]
    | succ m =>
      rw [splitSizes_cons bs hbs m]
      show (splitSizes bs (m + 1 - bs)).length + 1 = (m + 1 + bs - 1) / bs
      rw [ih (m + 1 - bs) (by omega)]
      rw [Nat.div_eq_sub_div hbs (by omega : bs ≤ m + 1 + bs - 1)]
      have he : m + 1 + bs - 1 - bs = m := by omega
      rw [he]
      have he2 : m + 1 - bs + bs - 1 = if bs ≤ m then m else bs - 1 := by
        split <;> omega
      rw [he2]
      by_cases hc : bs ≤ m
      · rw [if_pos hc]
      · rw [if_neg hc]
        rw [Nat.div_eq_of_lt (by omega), Nat.div_eq_of_lt (by omega)]

/-- Helper: the retry loop result always has exactly `n` entries. -/
theorem classifyLoop_len (oracle : ℕ → Option (List Char)) (n mr : ℕ) :
    ∀ l, (classifyLoop oracle n mr l).1.length = n := by
  intro l
  induction l with
  | nil => simp [classifyLoop]
  | cons a rest ih =>
    cases ho : oracle a with
    | some r =>
      by_cases hr : 7 / 10 ≤ successRate (countSome (parse_classification_response r n)) n
      · rw [classifyLoop_accept oracle n mr a rest r ho hr]
        exact parse_length r n
      · rw [classifyLoop_reject oracle n mr a rest r ho hr]
        exact ih
    | none =>
      rw [classifyLoop_exc oracle n mr a rest ho]
      exact ih

/-- Helper: `classify_batch` always returns one entry per input track. -/
theorem classify_batch_len (oracle : ℕ → Option (List Char)) (mr : ℕ)
    {α : Type} (tracks : List α) :
    (classify_batch oracle mr tracks).1.length = tracks.length := by
  cases tracks with
  | nil => rfl
  | cons x xs =>
    show (classifyLoop oracle (x :: xs).length mr (List.range mr)).1.length
      = (x :: xs).length
    exact classifyLoop_len oracle (x :: xs).length mr (List.range mr)

/-- Helper: the retry loop emits no batch progress print. -/
theorem batchStarts_classifyLoop (oracle : ℕ → Option (List Char)) (n mr : ℕ) :
    ∀ l, batchStarts (classifyLoop oracle n mr l).2 = [] := by
  intro l
  induction l with
  | nil => rfl
  | cons a rest ih =>
    cases ho : oracle a with
    | some r =>
      by_cases hr : 7 / 10 ≤ successRate (countSome (parse_classification_response r n)) n
      · rw [classifyLoop_accept oracle n mr a rest r ho hr]
        rfl
      · rw [classifyLoop_reject oracle n mr a rest r ho hr]
        simpa [batchStarts] using ih
    | none =>
      rw [classifyLoop_exc oracle n mr a rest ho]
      by_cases hlt : a < mr - 1
      · simp only [if_pos hlt]
        simpa [batchStarts] using ih
      · simp only [if_neg hlt]
        simpa [batchStarts] using ih

/-- Helper: `classify_batch` emits no batch progress print either. -/
theorem batchStarts_classify_batch (oracle : ℕ → Option (List Char)) (mr : ℕ)
    {α : Type} (tracks : List α) :
    batchStarts (classify_batch oracle mr tracks).2 = [] := by
  cases tracks with
  | nil => rfl
  | cons x xs => exact batchStarts_classifyLoop oracle (x :: xs).length mr (List.range mr)

/-- Helper: zipping a list against a split classification list agrees
with zipping its take/drop slices piecewise. -/
theorem zip_take_drop_append {A B : Type} (bs : ℕ) (l : List A) (c1 c2 : List B)
    (h : (l.take bs).length = c1.length) :
    l.zip (c1 ++ c2) = (l.take bs).zip c1 ++ (l.drop bs).zip c2 := by
  conv_lhs => rw [← List.take_append_drop bs l]
  exact List.zip_append h

/-- Helper: setting a key makes it look up to the new value. -/
theorem dictSet_lookup_same :
    ∀ (d : List (String × PyVal)) (k : String) (v : PyVal),
      List.lookup k (dictSet d k v) = some v := by
  intro d
  induction d with
  | nil => intro k v; simp [dictSet, List.lookup]
  | cons p t ih =>
    intro k v
    obtain ⟨k1, v1⟩ := p
    by_cases h : k1 = k
    · simp [dictSet, h, List.lookup]
    · simp only [dictSet, if_neg h, List.lookup]
      have : (k == k1) = false := by
        simp [Ne.symm h]
      rw [this]
      exact ih k v

/-- Helper: setting a key leaves every other key unchanged. -/
theorem dictSet_lookup_ne :
    ∀ (d : List (String × PyVal)) (k0 : String) (v : PyVal) (k : String),
      k ≠ k0 → List.lookup k (dictSet d k0 v) = List.lookup k d := by
  intro d
  induction d with
  | nil =>
    intro k0 v k hk
    have hb : (k == k0) = false := by simp [hk]
    simp [dictSet, List.lookup, hb]
  | cons p t ih =>
    intro k0 v k hk
    obtain ⟨k1, v1⟩ := p
    by_cases h : k1 = k0
    · simp only [dictSet, if_pos h, List.lookup]
      have h1 : (k == k0) = false := by simp [hk]
      have h2 : (k == k1) = false := by simp [h ▸ hk]
      rw [h1, h2]
    · simp only [dictSet, if_neg h, List.lookup]
      by_cases he : k = k1
      · simp [he]
      · have hb : (k == k1) = false := by simp [he]
        rw [hb]
        exact ih k0 v k hk

/-- Helper: the batching loop always succeeds for a positive batch size
and enough fuel, its output is the input zipped with a per-track
classification list attached copy-wise, and its trace announces exactly
the expected split sizes. -/
theorem classifyTracksGo_spec (oracle : ℕ → ℕ → Option (List Char)) (mr bs : ℕ)
    (hbs : 0 < bs) :
    ∀ fuel (l : List Dikt) (bnum : ℕ), l.length < fuel →
      ∃ res tr cls,
        classifyTracksGo oracle mr bs fuel bnum l = some (res, tr)
        ∧ cls.length = l.length
        ∧ res = (l.zip cls).map (fun p => dictSet p.1 "classification" (toPyVal p.2))
        ∧ batchStarts tr = splitSizes bs l.length := by
  intro fuel
  induction fuel with
  | zero =>
    intro l bnum h
    exact absurd h (Nat.not_lt_zero _)
  | succ fuel ih =>
    intro l bnum h
    cases l with
    | nil => exact ⟨[], [], [], rfl, rfl, rfl, rfl⟩
    | cons x t =>
      have hbs0 : ¬ bs = 0 := by omega
      have hrl : ((x :: t).drop bs).length < fuel := by
        rw [List.length_drop]
        simp only [List.length_cons] at h ⊢
        omega
      obtain ⟨res2, tr2, cls2, hgo2, hlen2, hres2, hbst2⟩ :=
        ih ((x :: t).drop bs) (bnum + 1) hrl
      refine ⟨attachAll ((x :: t).take bs)
          (classify_batch (oracle bnum) mr ((x :: t).take bs)).1 ++ res2,
        (Ev.batchStart ((x :: t).take bs).length
            :: (classify_batch (oracle bnum) mr ((x :: t).take bs)).2)
          ++ ((if ((x :: t).drop bs).isEmpty then ([] : List Ev) else [Ev.sleep 1]) ++ tr2),
        (classify_batch (oracle bnum) mr ((x :: t).take bs)).1 ++ cls2, ?_, ?_, ?_, ?_⟩
      · simp only [classifyTracksGo, if_neg hbs0, hgo2, List.cons_append,
          List.append_assoc]
      · rw [List.length_append, classify_batch_len, hlen2,
          List.length_take, List.length_drop]
        simp only [List.length_cons]
        omega
      · rw [hres2]
        rw [zip_take_drop_append bs (x :: t)
          (classify_batch (oracle bnum) mr ((x :: t).take bs)).1 cls2
          (by rw [classify_batch_len])]
        rw [List.map_append]
        rfl
      · rw [show batchStarts
            ((Ev.batchStart ((x :: t).take bs).length
                :: (classify_batch (oracle bnum) mr ((x :: t).take bs)).2)
              ++ ((if ((x :: t).drop bs).isEmpty then ([] : List Ev) else [Ev.sleep 1]) ++ tr2))
            = ((x :: t).take bs).length
              :: (batchStarts (classify_batch (oracle bnum) mr ((x :: t).take bs)).2
                ++ (batchStarts (if ((x :: t).drop bs).isEmpty then ([] : List Ev) else [Ev.sleep 1])
                  ++ batchStarts tr2)) from by
          simp [batchStarts, List.filterMap_append]]
        rw [batchStarts_classify_batch]
        have hpac : batchStarts
            (if ((x :: t).drop bs).isEmpty then ([] : List Ev) else [Ev.sleep 1]) = [] := by
          by_cases hp : ((x :: t).drop bs).isEmpty
          · rw [if_pos hp]; rfl
          · rw [if_neg hp]; rfl
        rw [hpac, hbst2, List.nil_append, List.nil_append, List.length_take,
          List.length_drop]
        simp only [List.length_cons]
        rw [splitSizes_cons bs hbs t.length]

/-- Helper: `classify_tracks` with a positive batch size always returns a
result whose records are copy-extended input records and whose trace
announces the expected batch split. -/
theorem classify_tracks_spec (oracle : ℕ → ℕ → Option (List Char)) (mr bs : ℕ)
    (hbs : 0 < bs) (tracks : List Dikt) :
    ∃ res tr cls,
      classify_tracks oracle mr bs tracks = some (res, tr)
      ∧ cls.length = tracks.length
      ∧ res = (tracks.zip cls).map (fun p => dictSet p.1 "classification" (toPyVal p.2))
      ∧ batchStarts tr = splitSizes bs tracks.length := by
  cases tracks with
  | nil => exact ⟨[], [], [], rfl, rfl, rfl, rfl⟩
  | cons x t =>
    have : classify_tracks oracle mr bs (x :: t)
        = classifyTracksGo oracle mr bs ((x :: t).length + 1) 1 (x :: t) := rfl
    rw [this]
    exact classifyTracksGo_spec oracle mr bs hbs ((x :: t).length + 1) (x :: t) 1
      (Nat.lt_succ_self _)

/-- Claim C6: `classify_tracks` with a positive batch size splits the
input into consecutive batches: the announced batch sizes are exactly
`splitSizes`, there are `⌈total / batch_size⌉` of them, each is at most
`batch_size`; and concretely, 57 tracks at batch size 25 yield the trace
`[batch 25, send, sleep 1, batch 25, send, sleep 1, batch 7, send]` —
three batches of 25, 25, 7 in order, a 1-unit pacing sleep after the
first and second batch and none after the last. -/
theorem claim6_batching (oracle : ℕ → ℕ → Option (List Char)) (mr bs : ℕ)
    (tracks : List Dikt) (hbs : 0 < bs) :
    (∃ res tr,
      classify_tracks oracle mr bs tracks = some (res, tr)
      ∧ batchStarts tr = splitSizes bs tracks.length
      ∧ (splitSizes bs tracks.length).length = (tracks.length + bs - 1) / bs
      ∧ (∀ s ∈ splitSizes bs tracks.length, s ≤ bs))
    ∧ (classify_tracks (fun _ _ => none) 1 25 (List.replicate 57 [])).map Prod.snd
        = some [Ev.batchStart 25, Ev.send, Ev.sleep 1, Ev.batchStart 25, Ev.send,
            Ev.sleep 1, Ev.batchStart 7, Ev.send] := by
  constructor
  · obtain ⟨res, tr, cls, heq, _, _, hbst⟩ := classify_tracks_spec oracle mr bs hbs tracks
    exact ⟨res, tr, heq, hbst, splitSizes_length bs hbs tracks.length,
      splitSizes_le bs hbs tracks.length⟩
  · decide

/-- Witness for C6 at concrete parameters. -/
theorem claim6_witness :
    (∃ res tr,
      classify_tracks (fun _ _ => none) 1 25 (List.replicate 57 []) = some (res, tr)
      ∧ batchStarts tr = splitSizes 25 (List.replicate 57 ([] : Dikt)).length
      ∧ (splitSizes 25 (List.replicate 57 ([] : Dikt)).length).length
          = ((List.replicate 57 ([] : Dikt)).length + 25 - 1) / 25
      ∧ (∀ s ∈ splitSizes 25 (List.replicate 57 ([] : Dikt)).length, s ≤ 25))
    ∧ (classify_tracks (fun _ _ => none) 1 25 (List.replicate 57 [])).map Prod.snd
        = some [Ev.batchStart 25, Ev.send, Ev.sleep 1, Ev.batchStart 25, Ev.send,
            Ev.sleep 1, Ev.batchStart 7, Ev.send] :=
  claim6_batching (fun _ _ => none) 1 25 (List.replicate 57 []) (by decide)

/-- Claim C8 counterexample: for an input track that already has a
`classification` field, the output record does not agree with the input
on that pre-existing field (it is overwritten, not added), so the output
is not the input plus one added field. -/
theorem claim8_counterexample :
    List.lookup "classification" trackC = some (PyVal.vStr ("House".toList))
    ∧ (classify_tracks (fun _ _ => none) 1 1 [trackC]).map Prod.fst
        = some [[("classification", PyVal.vNone)]]
    ∧ ¬ List.lookup "classification" [("classification", PyVal.vNone)]
        = some (PyVal.vStr ("House".toList)) := by
  refine ⟨rfl, by decide, by decide⟩

/-- Claim C8 as amended: `classify_tracks` is a pure function of its
input (the embedding carries no mutable state, mirroring the
`track.copy()` in the code, so input records are left unchanged), and
each output record is the corresponding input record with the
`classification` key set from the corresponding batch-result position:
every other key keeps its value, and the `classification` key holds the
attached result — overwriting any pre-existing `classification` value
rather than adding a second field. -/
theorem claim8_amended_copy_on_write (oracle : ℕ → ℕ → Option (List Char))
    (mr bs : ℕ) (tracks : List Dikt) (hbs : 0 < bs) :
    (∃ res tr cls,
      classify_tracks oracle mr bs tracks = some (res, tr)
      ∧ cls.length = tracks.length
      ∧ res = (tracks.zip cls).map
          (fun p => dictSet p.1 "classification" (toPyVal p.2)))
    ∧ (∀ (d : Dikt) (k : String) (v : PyVal), k ≠ "classification" →
        List.lookup k (dictSet d "classification" v) = List.lookup k d)
    ∧ (∀ (d : Dikt) (v : PyVal),
        List.lookup "classification" (dictSet d "classification" v) = some v) := by
  refine ⟨?_, ?_, ?_⟩
  · obtain ⟨res, tr, cls, heq, hlen, hres, _⟩ := classify_tracks_spec oracle mr bs hbs tracks
    exact ⟨res, tr, cls, heq, hlen, hres⟩
  · intro d k v hk
    exact dictSet_lookup_ne d "classification" v k hk
  · intro d v
    exact dictSet_lookup_same d "classification" v

/-- Witness for C8 (amended) at concrete parameters. -/
theorem claim8_witness :
    (∃ res tr cls,
      classify_tracks (fun _ _ => none) 1 1 [trackC] = some (res, tr)
      ∧ cls.length = [trackC].length
      ∧ res = ([trackC].zip cls).map
          (fun p => dictSet p.1 "classification" (toPyVal p.2)))
    ∧ (∀ (d : Dikt) (k : String) (v : PyVal), k ≠ "classification" →
        List.lookup k (dictSet d "classification" v) = List.lookup k d)
    ∧ (∀ (d : Dikt) (v : PyVal),
        List.lookup "classification" (dictSet d "classification" v) = some v) :=
  claim8_amended_copy_on_write (fun _ _ => none) 1 1 [trackC] (by decide)

/-- Claim C10: a falsy (`None` or `0`) `batch_size` or `max_retries`
constructor argument is discarded in favour of the environment value
(default 25 resp. 3); hence a zero stored value can only come from the
environment, never from the constructor argument; and with the default
environment the stored batch size is never zero and `classify_tracks`
never iterates with a zero batch step (it cannot hit the zero-step
error case). -/
theorem claim10_falsy_config (argB argR : Option ℤ) (env : EnvCfg) :
    initBatchSize (some 0) env = env.batchSizeVar.getD 25
    ∧ initBatchSize none env = env.batchSizeVar.getD 25
    ∧ initMaxRetries (some 0) env = env.maxRetriesVar.getD 3
    ∧ initMaxRetries none env = env.maxRetriesVar.getD 3
    ∧ initBatchSize (some 0) (EnvCfg.mk none none) = 25
    ∧ initMaxRetries (some 0) (EnvCfg.mk none none) = 3
    ∧ (initBatchSize argB env = 0 → env.batchSizeVar = some 0)
    ∧ (initMaxRetries argR env = 0 → env.maxRetriesVar = some 0)
    ∧ initBatchSize argB (EnvCfg.mk none none) ≠ 0
    ∧ (∀ (oracle : ℕ → ℕ → Option (List Char)) (mr : ℕ) (tracks : List Dikt),
        0 < initBatchSize argB env →
        classify_tracks oracle mr (initBatchSize argB env).toNat tracks ≠ none) := by
  refine ⟨by simp [initBatchSize], rfl, by simp [initMaxRetries], rfl, rfl, rfl,
    ?_, ?_, ?_, ?_⟩
  · intro h
    cases argB with
    | none =>
      cases hv : env.batchSizeVar with
      | none => rw [initBatchSize, hv] at h; simp at h
      | some v => rw [initBatchSize, hv] at h; simp at h; rw [h]
    | some b =>
      by_cases hb : b = 0
      · rw [initBatchSize, if_neg (by simp [hb])] at h
        cases hv : env.batchSizeVar with
        | none => rw [hv] at h; simp at h
        | some v => rw [hv] at h; simp at h; rw [h]
      · rw [initBatchSize, if_pos hb] at h
        exact absurd h hb
  · intro h
    cases argR with
    | none =>
      cases hv : env.maxRetriesVar with
      | none => rw [initMaxRetries, hv] at h; simp at h
      | some v => rw [initMaxRetries, hv] at h; simp at h; rw [h]
    | some b =>
      by_cases hb : b = 0
      · rw [initMaxRetries, if_neg (by simp [hb])] at h
        cases hv : env.maxRetriesVar with
        | none => rw [hv] at h; simp at h
        | some v => rw [hv] at h; simp at h; rw [h]
      · rw [initMaxRetries, if_pos hb] at h
        exact absurd h hb
  · intro h
    cases argB with
    | none => rw [initBatchSize] at h; simp at h
    | some b =>
      by_cases hb : b = 0
      · rw [initBatchSize, if_neg (by simp [hb])] at h
        simp at h
      · rw [initBatchSize, if_pos hb] at h
        exact hb h
  · intro oracle mr tracks hpos
    have hbs : 0 < (initBatchSize argB env).toNat := by omega
    obtain ⟨res, tr, cls, heq, _⟩ :=
      classify_tracks_spec oracle mr (initBatchSize argB env).toNat hbs tracks
    rw [heq]
    simp

/-- Witness for C10 at concrete arguments. -/
theorem claim10_witness :
    initBatchSize (some 0) (EnvCfg.mk none none)
        = (EnvCfg.mk none none).batchSizeVar.getD 25
    ∧ initBatchSize none (EnvCfg.mk none none)
        = (EnvCfg.mk none none).batchSizeVar.getD 25
    ∧ initMaxRetries (some 0) (EnvCfg.mk none none)
        = (EnvCfg.mk none none).maxRetriesVar.getD 3
    ∧ initMaxRetries none (EnvCfg.mk none none)
        = (EnvCfg.mk none none).maxRetriesVar.getD 3
    ∧ initBatchSize (some 0) (EnvCfg.mk none none) = 25
    ∧ initMaxRetries (some 0) (EnvCfg.mk none none) = 3
    ∧ (initBatchSize (some 0) (EnvCfg.mk none none) = 0
        → (EnvCfg.mk none none).batchSizeVar = some 0)
    ∧ (initMaxRetries (some 0) (EnvCfg.mk none none) = 0
        → (EnvCfg.mk none none).maxRetriesVar = some 0)
    ∧ initBatchSize (some 0) (EnvCfg.mk none none) ≠ 0
    ∧ (∀ (oracle : ℕ → ℕ → Option (List Char)) (mr : ℕ) (tracks : List Dikt),
        0 < initBatchSize (some 0) (EnvCfg.mk none none) →
        classify_tracks oracle mr
          (initBatchSize (some 0) (EnvCfg.mk none none)).toNat tracks ≠ none) :=
  claim10_falsy_config (some 0) (some 0) (EnvCfg.mk none none)
